import Mathlib

/-!
Shallow embedding of src/media/image.go (package media of the go-start
repository): the version-resolution and geometry engine for derived image
renditions.

Modelling conventions:
* Go `int` values are modelled as `ℤ`; 64-bit overflow is not modelled, the
  claims are about image geometry far below the overflow range.
* Go `float64` arithmetic (aspect ratios) is modelled as exact rational
  arithmetic over `ℚ`; `int(x)` conversion of a float is truncation toward
  zero (`goTrunc`), and Go integer division is truncated division
  (`goDiv` = `Int.tdiv`), as in the Go language specification.
* `image.Point`, `image.Rectangle` and their methods `Add`, `Empty`, `In`,
  `Dx`, `Dy` and the constructor `image.Rect` follow the Go standard library
  source of package image.
* The struct `ImageVersion` and the helpers `newImageVersion`,
  `ValidUrlFilename` and the `model.*` field wrappers are code of this
  repository that is outside the staged sources; they are modelled from the
  spec (each such definition carries a doc comment starting
  "Modelled from the spec:").
* The storage backend, the decoder and the resampling primitive are external
  collaborators (spec section 6); they enter as parameters (`BackendModel`,
  a `resize` function argument, decoded-image arguments to `NewImage`).
-/

/-- Go image.Point: X, Y coordinates. -/
structure GoPoint where
  X : ℤ
  Y : ℤ
deriving DecidableEq, Repr

/-- Go image.Rectangle: Min and Max points. -/
structure GoRect where
  Min : GoPoint
  Max : GoPoint
deriving DecidableEq, Repr

/-- Go image.Rectangle.Add: translate the rectangle by a point. -/
def GoRect.Add (r : GoRect) (p : GoPoint) : GoRect :=
  ⟨⟨r.Min.X + p.X, r.Min.Y + p.Y⟩, ⟨r.Max.X + p.X, r.Max.Y + p.Y⟩⟩

/-- Go image.Rectangle.Dx: width of the rectangle. -/
def GoRect.Dx (r : GoRect) : ℤ := r.Max.X - r.Min.X

/-- Go image.Rectangle.Dy: height of the rectangle. -/
def GoRect.Dy (r : GoRect) : ℤ := r.Max.Y - r.Min.Y

/-- Go image.Rectangle.Empty: reports whether the rectangle contains no points. -/
def GoRect.Empty (r : GoRect) : Bool :=
  decide (r.Min.X ≥ r.Max.X ∨ r.Min.Y ≥ r.Max.Y)

/-- Go image.Rectangle.In: reports whether every point of r is in s
(an empty rectangle is in every rectangle). -/
def GoRect.In (r s : GoRect) : Bool :=
  r.Empty ||
    decide (s.Min.X ≤ r.Min.X ∧ r.Max.X ≤ s.Max.X ∧ s.Min.Y ≤ r.Min.Y ∧ r.Max.Y ≤ s.Max.Y)

/-- Go image.Rect(x0, y0, x1, y1): the rectangle with those corners, with
coordinates swapped so that Min is componentwise at most Max. -/
def imageRect (x0 y0 x1 y1 : ℤ) : GoRect :=
  let p : ℤ × ℤ := if x0 > x1 then (x1, x0) else (x0, x1)
  let q : ℤ × ℤ := if y0 > y1 then (y1, y0) else (y0, y1)
  ⟨⟨p.1, q.1⟩, ⟨p.2, q.2⟩⟩

/-- Modelled from the spec: model.Color (a field wrapper outside the staged
sources) and Go color values, collapsed to an RGBA quadruple with exact
equality, following section 4.2 of the spec: "Match predicate is exact
equality on all five key fields". `EqualsColor` is this equality. -/
structure MColor where
  R : ℕ
  G : ℕ
  B : ℕ
  A : ℕ
deriving DecidableEq, Repr

/-- Go color.RGBA{}, and the zero value a model.Color field takes when a
version is constructed without one. -/
def zeroColor : MColor := ⟨0, 0, 0, 0⟩

/-- Go int(float64) conversion: truncation toward zero. -/
def goTrunc (q : ℚ) : ℤ := if q < 0 then -⌊-q⌋ else ⌊q⌋

/-- Go integer division: truncated division (rounds toward zero). -/
def goDiv (a b : ℤ) : ℤ := Int.tdiv a b

/-- Pixel source for renditions: models a Go image.Image value.
Bounds, a grayscale flag standing for ColorModel() being GrayModel or
Gray16Model, and the pixel function At. Pixel values are colors; the
color-model conversion a Go draw target applies on write is outside the
modelled core (the spec excludes codecs, section 1). -/
structure GoImage where
  Bounds : GoRect
  colorModelGray : Bool
  At : ℤ → ℤ → MColor

/-- Modelled from the spec: ImageVersion (one materialized rendition,
declared outside the staged sources) with the attributes of section 3 as
plain values; the model.String / model.Int / model.Bool / model.Color /
model.Rect wrappers and the backward image reference are collapsed away,
only the fields the staged code reads or writes are kept. -/
structure ImageVersion where
  Filename : String
  ContentType : String
  SourceRect : GoRect
  Width : ℤ
  Height : ℤ
  OutsideColor : MColor
  Grayscale : Bool
deriving DecidableEq, Repr

instance : Inhabited ImageVersion :=
  ⟨⟨"", "", ⟨⟨0, 0⟩, ⟨0, 0⟩⟩, 0, 0, zeroColor, false⟩⟩

/-- Modelled from the spec: newImageVersion is code of this repository
outside the staged sources. Its call sites in src/media/image.go fix its
signature: (filename, contentType, sourceRect, width, height, grayscale) —
no outside color is passed, so the OutsideColor field of a fresh version
keeps the zero value of its model.Color wrapper. -/
def newImageVersion (filename contentType : String) (sourceRect : GoRect)
    (width height : ℤ) (grayscale : Bool) : ImageVersion :=
  ⟨filename, contentType, sourceRect, width, height, zeroColor, grayscale⟩

/-- Modelled from the spec: ValidUrlFilename (filename sanitation) is outside
the staged sources and outside the core (section 1 excludes it); no claim
depends on its behavior, it is kept as the identity. -/
def ValidUrlFilename (s : String) : String := s

/-- The aggregate root of src/media/image.go: ID, Description, Link are kept
as plain strings, Versions is the ordered rendition list (index 0 is the
original). -/
structure Image where
  ID : String
  Description : String
  Link : String
  Versions : List ImageVersion
deriving DecidableEq

/-- Image.Filename: filename of the original (Versions[0]). -/
def Image.Filename (self : Image) : String := self.Versions.headI.Filename

/-- Image.ContentType: content type of the original. -/
def Image.ContentType (self : Image) : String := self.Versions.headI.ContentType

/-- Image.Width: width of the original. -/
def Image.Width (self : Image) : ℤ := self.Versions.headI.Width

/-- Image.Height: height of the original. -/
def Image.Height (self : Image) : ℤ := self.Versions.headI.Height

/-- Image.Rectangle: source rectangle of the original. -/
def Image.Rectangle (self : Image) : GoRect := self.Versions.headI.SourceRect

/-- Image.Grayscale: grayscale flag of the original. -/
def Image.Grayscale (self : Image) : Bool := self.Versions.headI.Grayscale

/-- Image.AspectRatio, Width / Height of the original; the Go float64
quotient is modelled as the exact rational quotient. The source delegates to
Versions[0].AspectRatio(), whose declaration is outside the staged sources;
the spec (section 3) fixes it as originalWidth / originalHeight. -/
def Image.AspectRatioQ (self : Image) : ℚ :=
  (self.Width : ℚ) / (self.Height : ℚ)

/-- Horizontal alignment enum of src/media/image.go. -/
inductive HorAlignment where
  | HorCenter
  | Left
  | Right
deriving DecidableEq, Repr

/-- Vertical alignment enum of src/media/image.go. -/
inductive VerAlignment where
  | VerCenter
  | Top
  | Bottom
deriving DecidableEq, Repr

/-- Image.touchOriginalFromOutsideSourceRect: the cover-from-outside
geometry resolver of src/media/image.go (lines 113-142). -/
def Image.touchOriginalFromOutsideSourceRect (self : Image) (width height : ℤ)
    (horAlign : HorAlignment) (verAlign : VerAlignment) : GoRect :=
  let aspectRatio : ℚ := (width : ℚ) / (height : ℚ)
  if aspectRatio > self.AspectRatioQ then
    -- Wider than original: the source rect is as high as the original
    let maxX : ℤ := goTrunc ((self.Height : ℚ) * aspectRatio)
    let maxY : ℤ := self.Height
    let offX : ℤ :=
      match horAlign with
      | HorAlignment.HorCenter => goDiv (self.Width - maxX) 2
      | HorAlignment.Right => self.Width - maxX
      | HorAlignment.Left => 0
    GoRect.Add ⟨⟨0, 0⟩, ⟨maxX, maxY⟩⟩ ⟨offX, 0⟩
  else
    -- Heigher than original: the source rect is as wide as the original
    let maxX : ℤ := self.Width
    let maxY : ℤ := goTrunc ((self.Width : ℚ) / aspectRatio)
    let offY : ℤ :=
      match verAlign with
      | VerAlignment.VerCenter => goDiv (self.Height - maxY) 2
      | VerAlignment.Bottom => self.Height - maxY
      | VerAlignment.Top => 0
    GoRect.Add ⟨⟨0, 0⟩, ⟨maxX, maxY⟩⟩ ⟨0, offY⟩

/-- Image.touchOriginalFromInsideSourceRect: the fit-inside geometry
resolver of src/media/image.go (lines 144-173). -/
def Image.touchOriginalFromInsideSourceRect (self : Image) (width height : ℤ)
    (horAlign : HorAlignment) (verAlign : VerAlignment) : GoRect :=
  let aspectRatio : ℚ := (width : ℚ) / (height : ℚ)
  if aspectRatio > self.AspectRatioQ then
    -- Wider than original: the source rect is as wide as the original
    let maxX : ℤ := self.Width
    let maxY : ℤ := goTrunc ((self.Width : ℚ) / aspectRatio)
    let offY : ℤ :=
      match verAlign with
      | VerAlignment.VerCenter => goDiv (self.Height - maxY) 2
      | VerAlignment.Bottom => self.Height - maxY
      | VerAlignment.Top => 0
    GoRect.Add ⟨⟨0, 0⟩, ⟨maxX, maxY⟩⟩ ⟨0, offY⟩
  else
    -- Heigher than original: the source rect is as high as the original
    let maxX : ℤ := goTrunc ((self.Height : ℚ) * aspectRatio)
    let maxY : ℤ := self.Height
    let offX : ℤ :=
      match horAlign with
      | HorAlignment.HorCenter => goDiv (self.Width - maxX) 2
      | HorAlignment.Right => self.Width - maxX
      | HorAlignment.Left => 0
    GoRect.Add ⟨⟨0, 0⟩, ⟨maxX, maxY⟩⟩ ⟨offX, 0⟩

/-- Go image.NewGray(r): a grayscale buffer with bounds r; pixels start at
the zero value (not claim-relevant, the fill below overwrites the bounds). -/
def NewGray (r : GoRect) : GoImage := ⟨r, true, fun _ _ => zeroColor⟩

/-- Go image.NewRGBA(r): a color buffer with bounds r. -/
def NewRGBA (r : GoRect) : GoImage := ⟨r, false, fun _ _ => zeroColor⟩

/-- Go draw.Draw(dst, dst.Bounds(), image.NewUniform(c), image.ZP, draw.Src):
every pixel inside the bounds of dst becomes c, the rest is unchanged. -/
def drawFillSrc (dst : GoImage) (c : MColor) : GoImage :=
  ⟨dst.Bounds, dst.colorModelGray,
    fun x y =>
      if dst.Bounds.Min.X ≤ x ∧ x < dst.Bounds.Max.X ∧
          dst.Bounds.Min.Y ≤ y ∧ y < dst.Bounds.Max.Y then c
      else dst.At x y⟩

/-- The exact-match predicate of the lookup loop of SourceRectVersion
(src/media/image.go lines 183-193): the local variable `match` of the loop
body, equality on all five key fields. -/
def versionMatches (v : ImageVersion) (sourceRect : GoRect) (width height : ℤ)
    (outsideColor : MColor) (grayscale : Bool) : Prop :=
  v.SourceRect = sourceRect ∧ v.Width = width ∧ v.Height = height ∧
    v.OutsideColor = outsideColor ∧ v.Grayscale = grayscale

instance (v sourceRect width height outsideColor grayscale) :
    Decidable (versionMatches v sourceRect width height outsideColor grayscale) := by
  unfold versionMatches; infer_instance

/-- The lookup loop of SourceRectVersion: scan the version list in order and
return the first exact match. -/
def findMatch (versions : List ImageVersion) (sourceRect : GoRect)
    (width height : ℤ) (outsideColor : MColor) (grayscale : Bool) :
    Option ImageVersion :=
  match versions with
  | [] => none
  | v :: rest =>
    if versionMatches v sourceRect width height outsideColor grayscale then some v
    else findMatch rest sourceRect width height outsideColor grayscale

/-- The storage backend as seen by one SourceRectVersion call (spec section
6): the outcome of loading the original pixels (Versions[0].LoadImage), of
persisting the new version pixels (version.SaveImage), and of persisting the
aggregate (Config.Backend.SaveImage). -/
structure BackendModel where
  loadImageResult : Option GoImage
  saveImageOk : Bool
  saveAggregateOk : Bool

/-- Observable outcome of one SourceRectVersion call: the returned version
(none when the Go function returns a nil version and an error), the receiver
state after the call, and which backend operations were invoked —
calledLoadImage for Versions[0].LoadImage(), savedVersionImage holds the
buffer passed to version.SaveImage (none when never invoked), and
calledSaveAggregate for Config.Backend.SaveImage(self). -/
structure SRVResult where
  version : Option ImageVersion
  image : Image
  calledLoadImage : Bool
  savedVersionImage : Option GoImage
  calledSaveAggregate : Bool

/-- Image.SourceRectVersion (src/media/image.go lines 177-227): force
grayscale when the original is grayscale, search for an exact match, and on
a miss load the original, resample in-bounds rectangles or synthesize a
filled canvas for out-of-bounds ones, append the new version and persist.
The external resampling primitive ResizeImage is a parameter. -/
def Image.SourceRectVersion (be : BackendModel)
    (ResizeImage : GoImage → GoRect → ℤ → ℤ → GoImage) (self : Image)
    (sourceRect : GoRect) (width height : ℤ) (grayscale : Bool)
    (outsideColor : MColor) : SRVResult :=
  let grayscale := if self.Grayscale then true else grayscale
  match findMatch self.Versions sourceRect width height outsideColor grayscale with
  | some v => ⟨some v, self, false, none, false⟩
  | none =>
    match be.loadImageResult with
    | none => ⟨none, self, true, none, false⟩
    | some origImage =>
      let versionImage : GoImage :=
        if sourceRect.In self.Rectangle then
          ResizeImage origImage sourceRect width height
        else
          drawFillSrc
            (if grayscale then NewGray (imageRect 0 0 width height)
             else NewRGBA (imageRect 0 0 width height)) outsideColor
      let version : ImageVersion :=
        newImageVersion self.Filename self.ContentType sourceRect width height grayscale
      let self2 : Image := ⟨self.ID, self.Description, self.Link, self.Versions ++ [version]⟩
      if be.saveImageOk then
        if be.saveAggregateOk then ⟨some version, self2, true, some versionImage, true⟩
        else ⟨none, self2, true, some versionImage, true⟩
      else ⟨none, self2, true, some versionImage, false⟩

/-- Image.VersionTouchOrigFromOutside (src/media/image.go lines 229-231). -/
def Image.VersionTouchOrigFromOutside (be : BackendModel)
    (ResizeImage : GoImage → GoRect → ℤ → ℤ → GoImage) (self : Image)
    (width height : ℤ) (horAlign : HorAlignment) (verAlign : VerAlignment)
    (grayscale : Bool) (outsideColor : MColor) : SRVResult :=
  self.SourceRectVersion be ResizeImage
    (self.touchOriginalFromOutsideSourceRect width height horAlign verAlign)
    width height grayscale outsideColor

/-- Image.Version (src/media/image.go lines 233-235); the fill color of the
fit-inside path is color.RGBA{}, the zero color. -/
def Image.Version (be : BackendModel)
    (ResizeImage : GoImage → GoRect → ℤ → ℤ → GoImage) (self : Image)
    (width height : ℤ) (horAlign : HorAlignment) (verAlign : VerAlignment)
    (grayscale : Bool) : SRVResult :=
  self.SourceRectVersion be ResizeImage
    (self.touchOriginalFromInsideSourceRect width height horAlign verAlign)
    width height grayscale zeroColor

/-- Image.CenteredVersion (src/media/image.go lines 237-239). -/
def Image.CenteredVersion (be : BackendModel)
    (ResizeImage : GoImage → GoRect → ℤ → ℤ → GoImage) (self : Image)
    (width height : ℤ) (grayscale : Bool) : SRVResult :=
  self.Version be ResizeImage width height
    HorAlignment.HorCenter VerAlignment.VerCenter grayscale

/-- Image.CenteredVersionTouchOrigFromOutside (src/media/image.go 241-243). -/
def Image.CenteredVersionTouchOrigFromOutside (be : BackendModel)
    (ResizeImage : GoImage → GoRect → ℤ → ℤ → GoImage) (self : Image)
    (width height : ℤ) (grayscale : Bool) (outsideColor : MColor) : SRVResult :=
  self.VersionTouchOrigFromOutside be ResizeImage width height
    HorAlignment.HorCenter VerAlignment.VerCenter grayscale outsideColor

/-- NewImage (src/media/image.go lines 34-69). Decoding and PNG re-encoding
are external (spec section 6): the decoded image and its format tag are
parameters, and the GIF/TIFF/BMP normalization round (png.Encode followed by
image.Decode) is the parameter reencodePNG, returning the re-decoded image
and its tag or a decode failure. saveDataOk is the outcome of
version.SaveImageData. The Go return (nil, err) is none. -/
def NewImage (saveDataOk : Bool)
    (reencodePNG : GoImage → Option (GoImage × String))
    (filename : String) (i : GoImage) (t : String) : Option Image :=
  let step : Option (String × GoImage × String) :=
    if t = "gif" || t = "bmp" || t = "tiff" then
      match reencodePNG i with
      | none => none
      | some it => some (filename ++ ".png", it.1, it.2)
    else some (filename, i, t)
  match step with
  | none => none
  | some fit =>
    let width : ℤ := fit.2.1.Bounds.Dx
    let height : ℤ := fit.2.1.Bounds.Dy
    let version : ImageVersion :=
      newImageVersion (ValidUrlFilename fit.1) ("image/" ++ fit.2.2)
        (imageRect 0 0 width height) width height fit.2.1.colorModelGray
    if saveDataOk then some ⟨"", "", "", [version]⟩ else none

/-! ### Concrete fixtures for witnesses and counterexamples -/

/-- An image holding only its original version, as NewImage builds it. -/
def mkOriginalOnly (W H : ℤ) (gray : Bool) : Image :=
  ⟨"", "", "", [⟨"f.png", "image/png", imageRect 0 0 W H, W, H, zeroColor, gray⟩]⟩

/-- A color original of 800 by 600 pixels (spec section 8 scenario). -/
def img800 : Image := mkOriginalOnly 800 600 false

/-- A color original of 99 by 100 pixels. -/
def img99 : Image := mkOriginalOnly 99 100 false

/-- A grayscale original of 1 by 1 pixels. -/
def imgGray1 : Image := mkOriginalOnly 1 1 true

/-- A color original of 1 by 1 pixels. -/
def imgColor1 : Image := mkOriginalOnly 1 1 false

/-- A concrete decoded pixel buffer. -/
def onePixel : GoImage := ⟨imageRect 0 0 1 1, false, fun _ _ => zeroColor⟩

/-- A backend on which every operation succeeds. -/
def beOK : BackendModel := ⟨some onePixel, true, true⟩

/-- A backend on which persisting version pixels fails. -/
def beSaveFails : BackendModel := ⟨some onePixel, false, true⟩

/-- A concrete stand-in for the external resampling primitive. -/
def constResize (o : GoImage) (r : GoRect) (w h : ℤ) : GoImage :=
  ⟨imageRect 0 0 w h, o.colorModelGray, o.At⟩

/-- An opaque-red fill color. -/
def redColor : MColor := ⟨255, 0, 0, 255⟩

/-! ### Helper lemmas -/

/-- Truncated division by two stays between its argument and zero. -/
lemma goDiv_two_between (a : ℤ) : min a 0 ≤ goDiv a 2 ∧ goDiv a 2 ≤ max a 0 := by
  unfold goDiv
  match a with
  | Int.ofNat n =>
    have h : Int.tdiv (Int.ofNat n) 2 = ((n / 2 : ℕ) : ℤ) := rfl
    rw [h, Int.ofNat_eq_natCast]
    have h2 := Nat.div_le_self n 2
    omega
  | Int.negSucc n =>
    have h : Int.tdiv (Int.negSucc n) 2 = -(((n + 1) / 2 : ℕ) : ℤ) := rfl
    rw [h, Int.negSucc_eq]
    have h2 := Nat.div_le_self (n + 1) 2
    omega

/-- Go int conversion of a nonnegative value is the floor. -/
lemma goTrunc_of_nonneg {q : ℚ} (hq : 0 ≤ q) : goTrunc q = ⌊q⌋ := by
  unfold goTrunc
  rw [if_neg (not_lt.mpr hq)]

/-- A version the lookup loop returns satisfies the exact-match predicate. -/
lemma findMatch_fields {l : List ImageVersion} {sr : GoRect} {w h : ℤ}
    {oc : MColor} {g : Bool} {v : ImageVersion}
    (hm : findMatch l sr w h oc g = some v) : versionMatches v sr w h oc g := by
  induction l with
  | nil => simp [findMatch] at hm
  | cons a rest ih =>
    rw [findMatch] at hm
    by_cases ha : versionMatches a sr w h oc g
    · rw [if_pos ha] at hm
      cases hm
      exact ha
    · rw [if_neg ha] at hm
      exact ih hm

/-- The lookup loop returns v exactly when v sits at the first index of the
list whose version matches all five key fields. -/
lemma findMatch_some_iff (l : List ImageVersion) (sr : GoRect) (w h : ℤ)
    (oc : MColor) (g : Bool) (v : ImageVersion) :
    findMatch l sr w h oc g = some v ↔
      ∃ i, ∃ hi : i < l.length,
        v = l[i] ∧ versionMatches l[i] sr w h oc g ∧
          ∀ j, j < i → ¬ versionMatches l[j]! sr w h oc g := by
  induction l generalizing v with
  | nil => simp [findMatch]
  | cons a rest ih =>
    rw [findMatch]
    by_cases ha : versionMatches a sr w h oc g
    · rw [if_pos ha]
      constructor
      · rintro hv
        cases hv
        exact ⟨0, by simp, by simp, by simpa using ha, by omega⟩
      · rintro ⟨i, hi, hv, hm, hfirst⟩
        match i with
        | 0 => simpa using hv.symm ▸ rfl
        | i + 1 =>
          exact absurd (by simpa using ha) (by simpa using hfirst 0 (Nat.succ_pos i))
    · rw [if_neg ha]
      rw [ih]
      constructor
      · rintro ⟨i, hi, hv, hm, hfirst⟩
        refine ⟨i + 1, by simpa using Nat.succ_lt_succ hi, by simpa using hv,
          by simpa using hm, ?_⟩
        intro j hj
        match j with
        | 0 => simpa using ha
        | j + 1 => simpa using hfirst j (Nat.lt_of_succ_lt_succ hj)
      · rintro ⟨i, hi, hv, hm, hfirst⟩
        match i with
        | 0 => exact absurd (by simpa using hm) ha
        | i + 1 =>
          refine ⟨i, Nat.lt_of_succ_lt_succ hi, by simpa using hv,
            by simpa using hm, ?_⟩
          intro j hj
          have := hfirst (j + 1) (Nat.succ_lt_succ hj)
          simpa using this

/-- On a cache hit SourceRectVersion returns the matched version, leaves the
image as it was and invokes no backend operation. -/
lemma srv_hit {be : BackendModel} {rz : GoImage → GoRect → ℤ → ℤ → GoImage}
    {self : Image} {sr : GoRect} {w h : ℤ} {gs : Bool} {oc : MColor}
    {v : ImageVersion}
    (hm : findMatch self.Versions sr w h oc
      (if self.Grayscale then true else gs) = some v) :
    Image.SourceRectVersion be rz self sr w h gs oc =
      ⟨some v, self, false, none, false⟩ := by
  simp only [Image.SourceRectVersion]
  rw [hm]

/-- imageRect with ordered corners swaps nothing. -/
lemma imageRect_of_le {x0 y0 x1 y1 : ℤ} (hx : x0 ≤ x1) (hy : y0 ≤ y1) :
    imageRect x0 y0 x1 y1 = ⟨⟨x0, y0⟩, ⟨x1, y1⟩⟩ := by
  simp [imageRect, not_lt.mpr hx, not_lt.mpr hy]

/-- A rectangle with coordinates inside the bounds is In the bounds
rectangle. -/
lemma in_bounds_of_coords {s : GoRect} {W H : ℤ} (hW : 0 < W) (hH : 0 < H)
    (h1 : 0 ≤ s.Min.X) (h2 : 0 ≤ s.Min.Y) (h3 : s.Max.X ≤ W) (h4 : s.Max.Y ≤ H) :
    s.In (imageRect 0 0 W H) = true := by
  rw [imageRect_of_le (by omega) (by omega)]
  simp only [GoRect.In, GoRect.Empty, Bool.or_eq_true, decide_eq_true_eq]
  right
  exact ⟨h1, h3, h2, h4⟩

/-- The bounds rectangle is In any rectangle that extends past it on every
side. -/
lemma bounds_in_of_coords {s : GoRect} {W H : ℤ} (hW : 0 < W) (hH : 0 < H)
    (h1 : s.Min.X ≤ 0) (h2 : s.Min.Y ≤ 0) (h3 : W ≤ s.Max.X) (h4 : H ≤ s.Max.Y) :
    (imageRect 0 0 W H).In s = true := by
  rw [imageRect_of_le (by omega) (by omega)]
  simp only [GoRect.In, GoRect.Empty, Bool.or_eq_true, decide_eq_true_eq]
  right
  exact ⟨h1, h3, h2, h4⟩

/-- C1: for every original image and every requested width > 0 and
height > 0 and any horizontal and vertical alignment, the sampling rectangle
computed by the fit-inside resolver touchOriginalFromInsideSourceRect (the
one Version uses) is fully contained in the bounds rectangle
(0,0)-(originalWidth,originalHeight) of the original. -/
theorem touchInside_contained_in_original (self : Image) (w h : ℤ)
    (horAlign : HorAlignment) (verAlign : VerAlignment)
    (hw : 0 < w) (hh : 0 < h) (hW : 0 < self.Width) (hH : 0 < self.Height) :
    ∀ r, r = self.touchOriginalFromInsideSourceRect w h horAlign verAlign →
      0 ≤ r.Min.X ∧ 0 ≤ r.Min.Y ∧ r.Max.X ≤ self.Width ∧ r.Max.Y ≤ self.Height ∧
      r.Min.X ≤ r.Max.X ∧ r.Min.Y ≤ r.Max.Y ∧
      r.In (imageRect 0 0 self.Width self.Height) = true := by
  intro r hr
  have hw0 : (0 : ℚ) < (w : ℚ) := by exact_mod_cast hw
  have hh0 : (0 : ℚ) < (h : ℚ) := by exact_mod_cast hh
  have hW0 : (0 : ℚ) < (self.Width : ℚ) := by exact_mod_cast hW
  have hH0 : (0 : ℚ) < (self.Height : ℚ) := by exact_mod_cast hH
  have har : (0 : ℚ) < (w : ℚ) / (h : ℚ) := div_pos hw0 hh0
  simp only [Image.touchOriginalFromInsideSourceRect, Image.AspectRatioQ] at hr
  have main : 0 ≤ r.Min.X ∧ 0 ≤ r.Min.Y ∧ r.Max.X ≤ self.Width ∧
      r.Max.Y ≤ self.Height ∧ r.Min.X ≤ r.Max.X ∧ r.Min.Y ≤ r.Max.Y := by
    split_ifs at hr with hb
    · -- wider than original: full width, truncated height band
      have hqnn : (0 : ℚ) ≤ (self.Width : ℚ) / ((w : ℚ) / (h : ℚ)) :=
        div_nonneg hW0.le har.le
      rw [goTrunc_of_nonneg hqnn] at hr
      have hT0 : 0 ≤ ⌊(self.Width : ℚ) / ((w : ℚ) / (h : ℚ))⌋ :=
        Int.floor_nonneg.mpr hqnn
      have hTH : ⌊(self.Width : ℚ) / ((w : ℚ) / (h : ℚ))⌋ ≤ self.Height := by
        have hlt : (self.Width : ℚ) / ((w : ℚ) / (h : ℚ)) < (self.Height : ℚ) := by
          rw [div_lt_iff₀ har]
          calc (self.Width : ℚ)
              < (w : ℚ) / (h : ℚ) * (self.Height : ℚ) := (div_lt_iff₀ hH0).mp hb
            _ = (self.Height : ℚ) * ((w : ℚ) / (h : ℚ)) := mul_comm _ _
        exact le_of_lt (Int.floor_lt.mpr hlt)
      have hd := goDiv_two_between (self.Height - ⌊(self.Width : ℚ) / ((w : ℚ) / (h : ℚ))⌋)
      cases verAlign <;> (subst hr; simp only [GoRect.Add]) <;> omega
    · -- at most as wide as the original: full height, truncated width band
      have hble : (w : ℚ) / (h : ℚ) ≤ (self.Width : ℚ) / (self.Height : ℚ) :=
        not_lt.mp hb
      have hqnn : (0 : ℚ) ≤ (self.Height : ℚ) * ((w : ℚ) / (h : ℚ)) :=
        mul_nonneg hH0.le har.le
      rw [goTrunc_of_nonneg hqnn] at hr
      have hT0 : 0 ≤ ⌊(self.Height : ℚ) * ((w : ℚ) / (h : ℚ))⌋ :=
        Int.floor_nonneg.mpr hqnn
      have hTW : ⌊(self.Height : ℚ) * ((w : ℚ) / (h : ℚ))⌋ ≤ self.Width := by
        have hle : (self.Height : ℚ) * ((w : ℚ) / (h : ℚ)) ≤ (self.Width : ℚ) := by
          calc (self.Height : ℚ) * ((w : ℚ) / (h : ℚ))
              = (w : ℚ) / (h : ℚ) * (self.Height : ℚ) := mul_comm _ _
            _ ≤ (self.Width : ℚ) := (le_div_iff₀ hH0).mp hble
        calc ⌊(self.Height : ℚ) * ((w : ℚ) / (h : ℚ))⌋
            ≤ ⌊(self.Width : ℚ)⌋ := Int.floor_le_floor hle
          _ = self.Width := Int.floor_intCast _
      have hd := goDiv_two_between (self.Width - ⌊(self.Height : ℚ) * ((w : ℚ) / (h : ℚ))⌋)
      cases horAlign <;> (subst hr; simp only [GoRect.Add]) <;> omega
  obtain ⟨m1, m2, m3, m4, m5, m6⟩ := main
  exact ⟨m1, m2, m3, m4, m5, m6, in_bounds_of_coords hW hH m1 m2 m3 m4⟩

/-- C1 witness: the concrete scenario of spec section 8, an 800 by 600
original with a 400 by 400 centered fit-inside request. -/
theorem touchInside_contained_in_original_witness :
    0 < (400 : ℤ) ∧ 0 < img800.Width ∧ 0 < img800.Height ∧
    (∀ r, r = img800.touchOriginalFromInsideSourceRect 400 400
        HorAlignment.HorCenter VerAlignment.VerCenter →
      0 ≤ r.Min.X ∧ 0 ≤ r.Min.Y ∧ r.Max.X ≤ img800.Width ∧
      r.Max.Y ≤ img800.Height ∧ r.Min.X ≤ r.Max.X ∧ r.Min.Y ≤ r.Max.Y ∧
      r.In (imageRect 0 0 img800.Width img800.Height) = true) :=
  ⟨by decide, by decide, by decide,
    touchInside_contained_in_original img800 400 400
      HorAlignment.HorCenter VerAlignment.VerCenter
      (by decide) (by decide) (by decide) (by decide)⟩

/-- C2 counterexample: on a 99 by 100 original, the cover-from-outside
rectangle for a 2 by 3 request is (0,-24)-(99,124), of width 99 and height
148, and 99 / 148 is not the requested ratio 2 / 3 — the truncation
int(99 / (2/3)) = int(148.5) = 148 loses the exactness the claim asserts. -/
theorem touchOutside_exact_ratio_counterexample :
    img99.touchOriginalFromOutsideSourceRect 2 3
        HorAlignment.HorCenter VerAlignment.VerCenter =
      ⟨⟨0, -24⟩, ⟨99, 124⟩⟩ ∧
    ¬ (((img99.touchOriginalFromOutsideSourceRect 2 3
          HorAlignment.HorCenter VerAlignment.VerCenter).Dx : ℚ) /
        ((img99.touchOriginalFromOutsideSourceRect 2 3
          HorAlignment.HorCenter VerAlignment.VerCenter).Dy : ℚ) =
        (2 : ℚ) / (3 : ℚ)) := by
  have hr : img99.touchOriginalFromOutsideSourceRect 2 3
      HorAlignment.HorCenter VerAlignment.VerCenter = ⟨⟨0, -24⟩, ⟨99, 124⟩⟩ := by
    norm_num [Image.touchOriginalFromOutsideSourceRect, Image.AspectRatioQ,
      Image.Width, Image.Height, img99, mkOriginalOnly, goTrunc, goDiv,
      GoRect.Add, imageRect, List.headI]
    decide
  refine ⟨hr, ?_⟩
  rw [hr]
  norm_num [GoRect.Dx, GoRect.Dy]

/-- C2 amended: for every original image and every requested width > 0 and
height > 0 and any alignment, the cover-from-outside rectangle contains the
full bounds of the original, and its sides match the requested aspect ratio
up to the integer truncation of the adapted side — the cross products
rectHeight*width and rectWidth*height differ by less than one requested
unit (so the ratio is exact precisely when the division is exact). -/
theorem touchOutside_covers_original (self : Image) (w h : ℤ)
    (horAlign : HorAlignment) (verAlign : VerAlignment)
    (hw : 0 < w) (hh : 0 < h) (hW : 0 < self.Width) (hH : 0 < self.Height) :
    ∀ r, r = self.touchOriginalFromOutsideSourceRect w h horAlign verAlign →
      r.Min.X ≤ 0 ∧ r.Min.Y ≤ 0 ∧ self.Width ≤ r.Max.X ∧ self.Height ≤ r.Max.Y ∧
      (imageRect 0 0 self.Width self.Height).In r = true ∧
      r.Dy * w - r.Dx * h < h ∧ r.Dx * h - r.Dy * w < w := by
  intro r hr
  have hw0 : (0 : ℚ) < (w : ℚ) := by exact_mod_cast hw
  have hh0 : (0 : ℚ) < (h : ℚ) := by exact_mod_cast hh
  have hW0 : (0 : ℚ) < (self.Width : ℚ) := by exact_mod_cast hW
  have hH0 : (0 : ℚ) < (self.Height : ℚ) := by exact_mod_cast hH
  have har : (0 : ℚ) < (w : ℚ) / (h : ℚ) := div_pos hw0 hh0
  simp only [Image.touchOriginalFromOutsideSourceRect, Image.AspectRatioQ] at hr
  split_ifs at hr with hb
  · -- wider than original: full height, width = trunc(H * ar) ≥ W
    have hqnn : (0 : ℚ) ≤ (self.Height : ℚ) * ((w : ℚ) / (h : ℚ)) :=
      mul_nonneg hH0.le har.le
    rw [goTrunc_of_nonneg hqnn] at hr
    have hWT : self.Width ≤ ⌊(self.Height : ℚ) * ((w : ℚ) / (h : ℚ))⌋ := by
      refine Int.le_floor.mpr (le_of_lt ?_)
      calc (self.Width : ℚ)
          < (w : ℚ) / (h : ℚ) * (self.Height : ℚ) := (div_lt_iff₀ hH0).mp hb
        _ = (self.Height : ℚ) * ((w : ℚ) / (h : ℚ)) := mul_comm _ _
    have hTl : ⌊(self.Height : ℚ) * ((w : ℚ) / (h : ℚ))⌋ * h ≤ self.Height * w := by
      have := Int.floor_le ((self.Height : ℚ) * ((w : ℚ) / (h : ℚ)))
      have hmul : (⌊(self.Height : ℚ) * ((w : ℚ) / (h : ℚ))⌋ : ℚ) * (h : ℚ) ≤
          (self.Height : ℚ) * (w : ℚ) := by
        calc (⌊(self.Height : ℚ) * ((w : ℚ) / (h : ℚ))⌋ : ℚ) * (h : ℚ)
            ≤ (self.Height : ℚ) * ((w : ℚ) / (h : ℚ)) * (h : ℚ) := by
              exact mul_le_mul_of_nonneg_right this hh0.le
          _ = (self.Height : ℚ) * (w : ℚ) := by
              rw [mul_assoc, div_mul_cancel₀ _ hh0.ne']
      exact_mod_cast hmul
    have hTu : self.Height * w < ⌊(self.Height : ℚ) * ((w : ℚ) / (h : ℚ))⌋ * h + h := by
      have := Int.lt_floor_add_one ((self.Height : ℚ) * ((w : ℚ) / (h : ℚ)))
      have hmul : (self.Height : ℚ) * (w : ℚ) <
          ((⌊(self.Height : ℚ) * ((w : ℚ) / (h : ℚ))⌋ : ℚ) + 1) * (h : ℚ) := by
        calc (self.Height : ℚ) * (w : ℚ)
            = (self.Height : ℚ) * ((w : ℚ) / (h : ℚ)) * (h : ℚ) := by
              rw [mul_assoc, div_mul_cancel₀ _ hh0.ne']
          _ < ((⌊(self.Height : ℚ) * ((w : ℚ) / (h : ℚ))⌋ : ℚ) + 1) * (h : ℚ) := by
              exact mul_lt_mul_of_pos_right this hh0
      have : self.Height * w < (⌊(self.Height : ℚ) * ((w : ℚ) / (h : ℚ))⌋ + 1) * h := by
        exact_mod_cast hmul
      linarith
    have hd := goDiv_two_between (self.Width - ⌊(self.Height : ℚ) * ((w : ℚ) / (h : ℚ))⌋)
    have main : r.Min.X ≤ 0 ∧ r.Min.Y ≤ 0 ∧ self.Width ≤ r.Max.X ∧
        self.Height ≤ r.Max.Y ∧ r.Dy * w - r.Dx * h < h ∧ r.Dx * h - r.Dy * w < w := by
      cases horAlign <;>
        (subst hr; simp only [GoRect.Add, GoRect.Dx, GoRect.Dy]) <;>
        refine ⟨by omega, by omega, by omega, by omega, by linarith, by linarith⟩
    obtain ⟨m1, m2, m3, m4, m5, m6⟩ := main
    exact ⟨m1, m2, m3, m4, bounds_in_of_coords hW hH m1 m2 m3 m4, m5, m6⟩
  · -- at most as wide as the original: full width, height = trunc(W / ar) ≥ H
    have hble : (w : ℚ) / (h : ℚ) ≤ (self.Width : ℚ) / (self.Height : ℚ) :=
      not_lt.mp hb
    have hqnn : (0 : ℚ) ≤ (self.Width : ℚ) / ((w : ℚ) / (h : ℚ)) :=
      div_nonneg hW0.le har.le
    rw [goTrunc_of_nonneg hqnn] at hr
    have hHT : self.Height ≤ ⌊(self.Width : ℚ) / ((w : ℚ) / (h : ℚ))⌋ := by
      refine Int.le_floor.mpr ?_
      rw [le_div_iff₀ har]
      calc (self.Height : ℚ) * ((w : ℚ) / (h : ℚ))
          = (w : ℚ) / (h : ℚ) * (self.Height : ℚ) := mul_comm _ _
        _ ≤ (self.Width : ℚ) := (le_div_iff₀ hH0).mp hble
    have hdivq : (self.Width : ℚ) / ((w : ℚ) / (h : ℚ)) =
        (self.Width : ℚ) * (h : ℚ) / (w : ℚ) := by
      rw [div_div_eq_mul_div]
    have hTl : ⌊(self.Width : ℚ) / ((w : ℚ) / (h : ℚ))⌋ * w ≤ self.Width * h := by
      have hmul : (⌊(self.Width : ℚ) / ((w : ℚ) / (h : ℚ))⌋ : ℚ) * (w : ℚ) ≤
          (self.Width : ℚ) * (h : ℚ) := by
        calc (⌊(self.Width : ℚ) / ((w : ℚ) / (h : ℚ))⌋ : ℚ) * (w : ℚ)
            ≤ (self.Width : ℚ) / ((w : ℚ) / (h : ℚ)) * (w : ℚ) := by
              exact mul_le_mul_of_nonneg_right (Int.floor_le _) hw0.le
          _ = (self.Width : ℚ) * (h : ℚ) / (w : ℚ) * (w : ℚ) := by rw [hdivq]
          _ = (self.Width : ℚ) * (h : ℚ) := div_mul_cancel₀ _ hw0.ne'
      exact_mod_cast hmul
    have hTu : self.Width * h < ⌊(self.Width : ℚ) / ((w : ℚ) / (h : ℚ))⌋ * w + w := by
      have hmul : (self.Width : ℚ) * (h : ℚ) <
          ((⌊(self.Width : ℚ) / ((w : ℚ) / (h : ℚ))⌋ : ℚ) + 1) * (w : ℚ) := by
        calc (self.Width : ℚ) * (h : ℚ)
            = (self.Width : ℚ) * (h : ℚ) / (w : ℚ) * (w : ℚ) :=
              (div_mul_cancel₀ _ hw0.ne').symm
          _ = (self.Width : ℚ) / ((w : ℚ) / (h : ℚ)) * (w : ℚ) := by rw [hdivq]
          _ < ((⌊(self.Width : ℚ) / ((w : ℚ) / (h : ℚ))⌋ : ℚ) + 1) * (w : ℚ) := by
              exact mul_lt_mul_of_pos_right (Int.lt_floor_add_one _) hw0
      have : self.Width * h < (⌊(self.Width : ℚ) / ((w : ℚ) / (h : ℚ))⌋ + 1) * w := by
        exact_mod_cast hmul
      linarith
    have hd := goDiv_two_between (self.Height - ⌊(self.Width : ℚ) / ((w : ℚ) / (h : ℚ))⌋)
    have main : r.Min.X ≤ 0 ∧ r.Min.Y ≤ 0 ∧ self.Width ≤ r.Max.X ∧
        self.Height ≤ r.Max.Y ∧ r.Dy * w - r.Dx * h < h ∧ r.Dx * h - r.Dy * w < w := by
      cases verAlign <;>
        (subst hr; simp only [GoRect.Add, GoRect.Dx, GoRect.Dy]) <;>
        refine ⟨by omega, by omega, by omega, by omega, by linarith, by linarith⟩
    obtain ⟨m1, m2, m3, m4, m5, m6⟩ := main
    exact ⟨m1, m2, m3, m4, bounds_in_of_coords hW hH m1 m2 m3 m4, m5, m6⟩

/-- C2 witness: the 99 by 100 original with the 2 by 3 centered request. -/
theorem touchOutside_covers_original_witness :
    0 < (2 : ℤ) ∧ 0 < (3 : ℤ) ∧ 0 < img99.Width ∧ 0 < img99.Height ∧
    (∀ r, r = img99.touchOriginalFromOutsideSourceRect 2 3
        HorAlignment.HorCenter VerAlignment.VerCenter →
      r.Min.X ≤ 0 ∧ r.Min.Y ≤ 0 ∧ img99.Width ≤ r.Max.X ∧ img99.Height ≤ r.Max.Y ∧
      (imageRect 0 0 img99.Width img99.Height).In r = true ∧
      r.Dy * 2 - r.Dx * 3 < 3 ∧ r.Dx * 3 - r.Dy * 2 < 2) :=
  ⟨by decide, by decide, by decide, by decide,
    touchOutside_covers_original img99 2 3
      HorAlignment.HorCenter VerAlignment.VerCenter
      (by decide) (by decide) (by decide) (by decide)⟩

/-- C9: when the requested aspect ratio is at most the aspect ratio of the
original, the fit-inside rectangles for horizontal alignment Left and Right
have the same width and height, and their horizontal offsets add up to
originalWidth minus the rectangle width. -/
theorem touchInside_left_right_symmetry (self : Image) (w h : ℤ)
    (verAlign : VerAlignment)
    (hle : (w : ℚ) / (h : ℚ) ≤ self.AspectRatioQ) :
    ∀ rl rr,
      rl = self.touchOriginalFromInsideSourceRect w h HorAlignment.Left verAlign →
      rr = self.touchOriginalFromInsideSourceRect w h HorAlignment.Right verAlign →
      rl.Dx = rr.Dx ∧ rl.Dy = rr.Dy ∧
      rl.Min.X + rr.Min.X = self.Width - rl.Dx := by
  intro rl rr hl hr2
  simp only [Image.touchOriginalFromInsideSourceRect] at hl hr2
  rw [if_neg (not_lt.mpr hle)] at hl hr2
  subst hl; subst hr2
  refine ⟨?_, ?_, ?_⟩ <;> simp only [GoRect.Add, GoRect.Dx, GoRect.Dy] <;> ring

/-- C9 witness: the 800 by 600 original with 400 by 400 requests aligned
left and right. -/
theorem touchInside_left_right_symmetry_witness :
    ((400 : ℚ) / (400 : ℚ) ≤ img800.AspectRatioQ) ∧
    (∀ rl rr,
      rl = img800.touchOriginalFromInsideSourceRect 400 400
        HorAlignment.Left VerAlignment.VerCenter →
      rr = img800.touchOriginalFromInsideSourceRect 400 400
        HorAlignment.Right VerAlignment.VerCenter →
      rl.Dx = rr.Dx ∧ rl.Dy = rr.Dy ∧
      rl.Min.X + rr.Min.X = img800.Width - rl.Dx) :=
  ⟨by norm_num [Image.AspectRatioQ, Image.Width, Image.Height, img800,
      mkOriginalOnly, List.headI],
    touchInside_left_right_symmetry img800 400 400 VerAlignment.VerCenter
      (by norm_num [Image.AspectRatioQ, Image.Width, Image.Height, img800,
        mkOriginalOnly, List.headI])⟩

/-- The original version of img800, as stored at index 0. -/
def origVersion800 : ImageVersion :=
  ⟨"f.png", "image/png", imageRect 0 0 800 600, 800, 600, zeroColor, false⟩

/-- The original version of imgGray1, as stored at index 0. -/
def grayVersion1 : ImageVersion :=
  ⟨"f.png", "image/png", imageRect 0 0 1 1, 1, 1, zeroColor, true⟩

/-- C10: when SourceRectVersion finds an exact cache match it returns the
existing version with no error, the version list is unchanged, and no
storage backend operation is invoked: the original is not loaded, no
version pixels are saved and the aggregate is not saved. -/
theorem sourceRectVersion_cache_hit_frame (be : BackendModel)
    (rz : GoImage → GoRect → ℤ → ℤ → GoImage) (self : Image) (sr : GoRect)
    (w h : ℤ) (gs : Bool) (oc : MColor) (v : ImageVersion)
    (hm : findMatch self.Versions sr w h oc
      (if self.Grayscale then true else gs) = some v) :
    Image.SourceRectVersion be rz self sr w h gs oc =
      ⟨some v, self, false, none, false⟩ :=
  srv_hit hm

/-- C10 witness: requesting the exact original rectangle of img800 hits the
cache at index 0 and performs nothing. -/
theorem sourceRectVersion_cache_hit_frame_witness :
    (findMatch img800.Versions (imageRect 0 0 800 600) 800 600 zeroColor
      (if img800.Grayscale then true else false) = some origVersion800) ∧
    Image.SourceRectVersion beOK constResize img800 (imageRect 0 0 800 600)
        800 600 false zeroColor =
      ⟨some origVersion800, img800, false, none, false⟩ :=
  ⟨by decide,
    sourceRectVersion_cache_hit_frame beOK constResize img800
      (imageRect 0 0 800 600) 800 600 false zeroColor origVersion800 (by decide)⟩

/-- C4: when the original version of an image is grayscale, every version
SourceRectVersion returns is grayscale, whatever the caller requested. -/
theorem sourceRectVersion_forces_grayscale (be : BackendModel)
    (rz : GoImage → GoRect → ℤ → ℤ → GoImage) (self : Image) (sr : GoRect)
    (w h : ℤ) (gs : Bool) (oc : MColor) (v : ImageVersion)
    (hg : self.Grayscale = true)
    (hv : (Image.SourceRectVersion be rz self sr w h gs oc).version = some v) :
    v.Grayscale = true := by
  have hgs : (if self.Grayscale then true else gs) = true := by simp [hg]
  cases hfm : findMatch self.Versions sr w h oc
      (if self.Grayscale then true else gs) with
  | some u =>
    rw [srv_hit hfm] at hv
    simp only [Option.some.injEq] at hv
    subst hv
    have hfields := (findMatch_fields hfm).2.2.2.2
    rw [hgs] at hfields
    exact hfields
  | none =>
    simp only [Image.SourceRectVersion, hfm] at hv
    cases hbe : be.loadImageResult with
    | none => rw [hbe] at hv; simp at hv
    | some o =>
      rw [hbe] at hv
      by_cases h1 : be.saveImageOk
      · by_cases h2 : be.saveAggregateOk
        · simp only [h1, h2, if_true] at hv
          simp only [Option.some.injEq] at hv
          subst hv
          simp [newImageVersion, hgs]
        · simp [h1, h2] at hv
      · simp [h1] at hv

/-- C4 witness: a grayscale 1 by 1 original requested with grayscale =
false still returns a grayscale version. -/
theorem sourceRectVersion_forces_grayscale_witness :
    imgGray1.Grayscale = true ∧
    (Image.SourceRectVersion beOK constResize imgGray1 (imageRect 0 0 1 1)
      1 1 false zeroColor).version = some grayVersion1 ∧
    grayVersion1.Grayscale = true :=
  ⟨by decide, by decide,
    sourceRectVersion_forces_grayscale beOK constResize imgGray1
      (imageRect 0 0 1 1) 1 1 false zeroColor grayVersion1 (by decide) (by decide)⟩

/-- C5: the cache lookup of SourceRectVersion returns a stored version
exactly when it is the version at the first index, scanning in append order
from index 0, whose five key fields SourceRect, Width, Height, OutsideColor
and Grayscale equal the request (with the grayscale of the request forced by
a grayscale original); every earlier version fails the exact five-field
equality, and SourceRectVersion returns precisely that version. -/
theorem sourceRectVersion_lookup_exact_first_match (be : BackendModel)
    (rz : GoImage → GoRect → ℤ → ℤ → GoImage) (self : Image) (sr : GoRect)
    (w h : ℤ) (gs : Bool) (oc : MColor) (v : ImageVersion) :
    (findMatch self.Versions sr w h oc
        (if self.Grayscale then true else gs) = some v ↔
      ∃ i, ∃ hi : i < self.Versions.length,
        v = self.Versions[i] ∧
        (self.Versions[i].SourceRect = sr ∧ self.Versions[i].Width = w ∧
          self.Versions[i].Height = h ∧ self.Versions[i].OutsideColor = oc ∧
          self.Versions[i].Grayscale = (if self.Grayscale then true else gs)) ∧
        ∀ j, j < i →
          ¬ (self.Versions[j]!.SourceRect = sr ∧ self.Versions[j]!.Width = w ∧
            self.Versions[j]!.Height = h ∧ self.Versions[j]!.OutsideColor = oc ∧
            self.Versions[j]!.Grayscale = (if self.Grayscale then true else gs))) ∧
    (findMatch self.Versions sr w h oc
        (if self.Grayscale then true else gs) = some v →
      Image.SourceRectVersion be rz self sr w h gs oc =
        ⟨some v, self, false, none, false⟩) :=
  ⟨findMatch_some_iff self.Versions sr w h oc
      (if self.Grayscale then true else gs) v,
    fun hm => srv_hit hm⟩

/-- C7: on a cache miss with a loadable original, when persisting the new
version pixels fails or persisting the aggregate fails, SourceRectVersion
returns no version (an error) and the version appended to the in-memory
list stays appended — the append is not rolled back. -/
theorem sourceRectVersion_save_failure_keeps_append (be : BackendModel)
    (rz : GoImage → GoRect → ℤ → ℤ → GoImage) (self : Image) (sr : GoRect)
    (w h : ℤ) (gs : Bool) (oc : MColor)
    (hmiss : findMatch self.Versions sr w h oc
      (if self.Grayscale then true else gs) = none)
    (horig : be.loadImageResult.isSome = true)
    (hfail : be.saveImageOk = false ∨ be.saveAggregateOk = false) :
    (Image.SourceRectVersion be rz self sr w h gs oc).version = none ∧
    (Image.SourceRectVersion be rz self sr w h gs oc).image.Versions =
      self.Versions ++ [newImageVersion self.Filename self.ContentType sr w h
        (if self.Grayscale then true else gs)] := by
  simp only [Image.SourceRectVersion, hmiss]
  cases hbe : be.loadImageResult with
  | none => rw [hbe] at horig; simp at horig
  | some o =>
    rcases hfail with h1 | h2
    · simp [h1]
    · by_cases h1 : be.saveImageOk
      · simp [h1, h2]
      · simp [h1]

/-- C7 witness: a missing 2 by 2 request on imgColor1 against a backend
whose pixel persistence fails returns no version yet appends. -/
theorem sourceRectVersion_save_failure_keeps_append_witness :
    (findMatch imgColor1.Versions (imageRect 0 0 1 1) 2 2 zeroColor
      (if imgColor1.Grayscale then true else false) = none) ∧
    beSaveFails.loadImageResult.isSome = true ∧
    (beSaveFails.saveImageOk = false ∨ beSaveFails.saveAggregateOk = false) ∧
    (Image.SourceRectVersion beSaveFails constResize imgColor1
      (imageRect 0 0 1 1) 2 2 false zeroColor).version = none ∧
    (Image.SourceRectVersion beSaveFails constResize imgColor1
      (imageRect 0 0 1 1) 2 2 false zeroColor).image.Versions =
      imgColor1.Versions ++ [newImageVersion imgColor1.Filename
        imgColor1.ContentType (imageRect 0 0 1 1) 2 2
        (if imgColor1.Grayscale then true else false)] :=
  ⟨by decide, by decide, by decide,
    (sourceRectVersion_save_failure_keeps_append beSaveFails constResize
      imgColor1 (imageRect 0 0 1 1) 2 2 false zeroColor (by decide)
      (by decide) (by decide)).1,
    (sourceRectVersion_save_failure_keeps_append beSaveFails constResize
      imgColor1 (imageRect 0 0 1 1) 2 2 false zeroColor (by decide)
      (by decide) (by decide)).2⟩

/-- The synthesized out-of-bounds canvas has the requested size and color
mode and every pixel inside it is the outside fill color. -/
lemma fillCanvas_spec (w h : ℤ) (g : Bool) (oc : MColor) (hw : 0 < w) (hh : 0 < h) :
    (drawFillSrc (if g then NewGray (imageRect 0 0 w h)
        else NewRGBA (imageRect 0 0 w h)) oc).Bounds = ⟨⟨0, 0⟩, ⟨w, h⟩⟩ ∧
    (drawFillSrc (if g then NewGray (imageRect 0 0 w h)
        else NewRGBA (imageRect 0 0 w h)) oc).colorModelGray = g ∧
    ∀ x y, 0 ≤ x → x < w → 0 ≤ y → y < h →
      (drawFillSrc (if g then NewGray (imageRect 0 0 w h)
        else NewRGBA (imageRect 0 0 w h)) oc).At x y = oc := by
  have hrect : imageRect 0 0 w h = ⟨⟨0, 0⟩, ⟨w, h⟩⟩ :=
    imageRect_of_le (by omega) (by omega)
  cases g <;>
    refine ⟨by simp [drawFillSrc, NewGray, NewRGBA, hrect],
      by simp [drawFillSrc, NewGray, NewRGBA, hrect], ?_⟩ <;>
    (intro x y h1 h2 h3 h4
     simp only [drawFillSrc, NewGray, NewRGBA, hrect, if_true, if_false,
       Bool.false_eq_true, ite_false, ite_true]
     rw [if_pos ⟨h1, h2, h3, h4⟩])

/-- C6: on a cache miss, when the sampling rectangle is not fully inside the
bounds of the original, SourceRectVersion persists a canvas of exactly
width by height pixels, grayscale per the forced or requested mode, every
pixel of which is the outside fill color — no content of the original is
composited; when the rectangle is inside the bounds, the external
resampling primitive applied to the sub-region is persisted instead. -/
theorem sourceRectVersion_fill_or_resample (be : BackendModel)
    (rz : GoImage → GoRect → ℤ → ℤ → GoImage) (self : Image) (sr : GoRect)
    (w h : ℤ) (gs : Bool) (oc : MColor) (origImg : GoImage)
    (hw : 0 < w) (hh : 0 < h)
    (hmiss : findMatch self.Versions sr w h oc
      (if self.Grayscale then true else gs) = none)
    (hload : be.loadImageResult = some origImg) :
    (sr.In self.Rectangle = true →
      (Image.SourceRectVersion be rz self sr w h gs oc).savedVersionImage =
        some (rz origImg sr w h)) ∧
    (sr.In self.Rectangle = false →
      ∃ ci, (Image.SourceRectVersion be rz self sr w h gs oc).savedVersionImage =
          some ci ∧
        ci.Bounds = ⟨⟨0, 0⟩, ⟨w, h⟩⟩ ∧
        ci.colorModelGray = (if self.Grayscale then true else gs) ∧
        ∀ x y, 0 ≤ x → x < w → 0 ≤ y → y < h → ci.At x y = oc) := by
  constructor
  · intro hIn
    simp only [Image.SourceRectVersion, hmiss, hload, hIn, if_true]
    by_cases h1 : be.saveImageOk <;> by_cases h2 : be.saveAggregateOk <;>
      simp [h1, h2]
  · intro hIn
    refine ⟨drawFillSrc (if (if self.Grayscale then true else gs) then
        NewGray (imageRect 0 0 w h) else NewRGBA (imageRect 0 0 w h)) oc,
      ?_, (fillCanvas_spec w h _ oc hw hh).1, (fillCanvas_spec w h _ oc hw hh).2.1,
      (fillCanvas_spec w h _ oc hw hh).2.2⟩
    simp only [Image.SourceRectVersion, hmiss, hload, hIn, Bool.false_eq_true,
      if_false]
    by_cases h1 : be.saveImageOk <;> by_cases h2 : be.saveAggregateOk <;>
      simp [h1, h2]

/-- C6 witness: requesting the out-of-bounds rectangle (-1,0)-(3,2) on
imgColor1, and the in-bounds original rectangle at a new size. -/
theorem sourceRectVersion_fill_or_resample_witness :
    0 < (4 : ℤ) ∧ 0 < (2 : ℤ) ∧
    (findMatch imgColor1.Versions ⟨⟨-1, 0⟩, ⟨3, 2⟩⟩ 4 2 redColor
      (if imgColor1.Grayscale then true else false) = none) ∧
    beOK.loadImageResult = some onePixel ∧
    ((⟨⟨-1, 0⟩, ⟨3, 2⟩⟩ : GoRect).In imgColor1.Rectangle = false →
      ∃ ci, (Image.SourceRectVersion beOK constResize imgColor1
          ⟨⟨-1, 0⟩, ⟨3, 2⟩⟩ 4 2 false redColor).savedVersionImage = some ci ∧
        ci.Bounds = ⟨⟨0, 0⟩, ⟨4, 2⟩⟩ ∧
        ci.colorModelGray = (if imgColor1.Grayscale then true else false) ∧
        ∀ x y, 0 ≤ x → x < 4 → 0 ≤ y → y < 2 → ci.At x y = redColor) :=
  ⟨by decide, by decide, by decide, rfl,
    (sourceRectVersion_fill_or_resample beOK constResize imgColor1
      ⟨⟨-1, 0⟩, ⟨3, 2⟩⟩ 4 2 false redColor onePixel (by decide) (by decide)
      (by decide) rfl).2⟩

/-- SourceRectVersion either leaves the version list unchanged or appends
exactly one version at the end. -/
lemma srv_versions_shape (be : BackendModel)
    (rz : GoImage → GoRect → ℤ → ℤ → GoImage) (self : Image) (sr : GoRect)
    (w h : ℤ) (gs : Bool) (oc : MColor) :
    (Image.SourceRectVersion be rz self sr w h gs oc).image.Versions =
        self.Versions ∨
      ∃ nv, (Image.SourceRectVersion be rz self sr w h gs oc).image.Versions =
        self.Versions ++ [nv] := by
  cases hfm : findMatch self.Versions sr w h oc
      (if self.Grayscale then true else gs) with
  | some u => left; rw [srv_hit hfm]
  | none =>
    simp only [Image.SourceRectVersion, hfm]
    cases hbe : be.loadImageResult with
    | none => left; rfl
    | some o =>
      right
      refine ⟨newImageVersion self.Filename self.ContentType sr w h
        (if self.Grayscale then true else gs), ?_⟩
      by_cases h1 : be.saveImageOk <;> by_cases h2 : be.saveAggregateOk <;>
        simp [h1, h2]

/-- C8: a successfully constructed image has exactly one version whose
source rectangle is the full bounds (0,0)-(originalWidth,originalHeight),
and SourceRectVersion only ever appends to the version list (at most one
version per call), so the list never shrinks and never empties. -/
theorem newImage_one_full_version_append_only (saveDataOk : Bool)
    (reencodePNG : GoImage → Option (GoImage × String)) (filename : String)
    (i0 : GoImage) (t : String) (img : Image) (be : BackendModel)
    (rz : GoImage → GoRect → ℤ → ℤ → GoImage) (self : Image) (sr : GoRect)
    (w h : ℤ) (gs : Bool) (oc : MColor)
    (hmk : NewImage saveDataOk reencodePNG filename i0 t = some img) :
    (img.Versions.length = 1 ∧
      img.Versions.headI.SourceRect = imageRect 0 0 img.Width img.Height) ∧
    ((Image.SourceRectVersion be rz self sr w h gs oc).image.Versions =
        self.Versions ∨
      ∃ nv, (Image.SourceRectVersion be rz self sr w h gs oc).image.Versions =
        self.Versions ++ [nv]) ∧
    self.Versions.length ≤
      (Image.SourceRectVersion be rz self sr w h gs oc).image.Versions.length := by
  refine ⟨?_, srv_versions_shape be rz self sr w h gs oc, ?_⟩
  · simp only [NewImage] at hmk
    split at hmk
    · exact absurd hmk (by simp)
    · split at hmk
      · simp only [Option.some.injEq] at hmk
        subst hmk
        simp [newImageVersion, Image.Width, Image.Height, List.headI]
      · exact absurd hmk (by simp)
  · rcases srv_versions_shape be rz self sr w h gs oc with hc | ⟨nv, hc⟩ <;>
      rw [hc] <;> simp

/-- The image NewImage builds from a decoded 1 by 1 PNG buffer. -/
def imgNew1 : Image :=
  ⟨"", "", "", [newImageVersion "f" "image/png" (imageRect 0 0 1 1) 1 1 false]⟩

/-- A re-encoder stand-in that is never consulted for native formats. -/
def noReencode : GoImage → Option (GoImage × String) := fun _ => none

/-- C8 witness: constructing from a decoded 1 by 1 PNG buffer, and a request
on img800. -/
theorem newImage_one_full_version_append_only_witness :
    (NewImage true noReencode "f" onePixel "png" = some imgNew1) ∧
    (imgNew1.Versions.length = 1 ∧
      imgNew1.Versions.headI.SourceRect =
        imageRect 0 0 imgNew1.Width imgNew1.Height) ∧
    ((Image.SourceRectVersion beOK constResize img800 (imageRect 0 0 800 600)
        800 600 false zeroColor).image.Versions = img800.Versions ∨
      ∃ nv, (Image.SourceRectVersion beOK constResize img800
          (imageRect 0 0 800 600) 800 600 false zeroColor).image.Versions =
        img800.Versions ++ [nv]) ∧
    img800.Versions.length ≤
      (Image.SourceRectVersion beOK constResize img800 (imageRect 0 0 800 600)
        800 600 false zeroColor).image.Versions.length :=
  ⟨by decide,
    (newImage_one_full_version_append_only true noReencode "f" onePixel
      "png" imgNew1 beOK constResize img800 (imageRect 0 0 800 600) 800 600
      false zeroColor (by decide)).1,
    (newImage_one_full_version_append_only true noReencode "f" onePixel
      "png" imgNew1 beOK constResize img800 (imageRect 0 0 800 600) 800 600
      false zeroColor (by decide)).2.1,
    (newImage_one_full_version_append_only true noReencode "f" onePixel
      "png" imgNew1 beOK constResize img800 (imageRect 0 0 800 600) 800 600
      false zeroColor (by decide)).2.2⟩

/-- The state of imgColor1 after one successful VersionTouchOrigFromOutside
request with the opaque-red outside fill. -/
def imgColor1AfterRed : Image :=
  (Image.VersionTouchOrigFromOutside beOK constResize imgColor1 1 1
    HorAlignment.HorCenter VerAlignment.VerCenter false redColor).image

/-- C3 failing input: newImageVersion receives no outside color, so the
version created for a red-filled cover request stores the zero color; the
identical second request matches nothing (its red key equals no stored
color) and a third version is created — the claimed idempotence fails,
len(Versions) becomes 3, not 2. -/
theorem versionTouchOutside_color_key_lost :
    imgColor1AfterRed.Versions.length = 2 ∧
    imgColor1AfterRed.Versions[1]!.OutsideColor = zeroColor ∧
    redColor ≠ zeroColor ∧
    (Image.VersionTouchOrigFromOutside beOK constResize imgColor1AfterRed 1 1
      HorAlignment.HorCenter VerAlignment.VerCenter false
      redColor).image.Versions.length = 3 := by
  have htouch : imgColor1.touchOriginalFromOutsideSourceRect 1 1
      HorAlignment.HorCenter VerAlignment.VerCenter = imageRect 0 0 1 1 := by
    norm_num [Image.touchOriginalFromOutsideSourceRect, Image.AspectRatioQ,
      Image.Width, Image.Height, imgColor1, mkOriginalOnly, goTrunc, goDiv,
      GoRect.Add, imageRect, List.headI]
  have hfirst : imgColor1AfterRed =
      ⟨"", "", "", [⟨"f.png", "image/png", imageRect 0 0 1 1, 1, 1, zeroColor,
        false⟩, newImageVersion "f.png" "image/png" (imageRect 0 0 1 1) 1 1
        false]⟩ := by
    simp only [imgColor1AfterRed, Image.VersionTouchOrigFromOutside, htouch]
    decide
  have htouch2 : imgColor1AfterRed.touchOriginalFromOutsideSourceRect 1 1
      HorAlignment.HorCenter VerAlignment.VerCenter = imageRect 0 0 1 1 := by
    rw [hfirst]
    norm_num [Image.touchOriginalFromOutsideSourceRect, Image.AspectRatioQ,
      Image.Width, Image.Height, newImageVersion, goTrunc, goDiv,
      GoRect.Add, imageRect, List.headI]
  refine ⟨by rw [hfirst]; decide, by rw [hfirst]; decide, by decide, ?_⟩
  simp only [Image.VersionTouchOrigFromOutside, htouch2]
  rw [hfirst]
  decide

/-- Sanity check, spec section 8 concrete scenario: on an 800 by 600
original, the centered 400 by 400 fit-inside rectangle is (100,0)-(700,600). -/
theorem touchInside_spec_scenario :
    img800.touchOriginalFromInsideSourceRect 400 400
        HorAlignment.HorCenter VerAlignment.VerCenter =
      ⟨⟨100, 0⟩, ⟨700, 600⟩⟩ := by
  norm_num [Image.touchOriginalFromInsideSourceRect, Image.AspectRatioQ,
    Image.Width, Image.Height, img800, mkOriginalOnly, goTrunc, goDiv,
    GoRect.Add, List.headI]
  decide
